import Mathlib

/-!
Verification of `src/script.py`, a converter from curly-brace block syntax to
indentation-based block syntax.

Shallow embedding conventions:
* Python strings are modelled as `List Char`; `'\n'` is the line terminator
  (the embedding of `str.splitlines`/`'\n'.join` treats only `'\n'` as a line
  break, which covers all inputs considered here).
* Python `str.strip`-family whitespace is modelled by `pyspace`
  (the six ASCII whitespace characters).
* The Python `tokenize.generate_tokens` generator is external to the
  repository; it is modelled abstractly as a stream
  `List (Except LexError Tok)`: the `.ok` entries are the tokens the
  tokenizer yields, in order, and an `.error` entry marks the point at which
  the tokenizer raises; entries after the first `.error` never materialise.
  The error kind matters: `get_protected_positions` catches only
  `tokenize.TokenError` and `ValueError` (`LexError.tokenError`), while the
  tokenizer can also raise `IndentationError` / `TabError`
  (`LexError.indentationError`), which escape the `except` clause and
  propagate out of the conversion; the protector and the conversion are
  therefore `Except`-valued.  Tokens carry the 1-based `start`/`end`
  coordinates the Python tokenizer reports.
* The Python `set` of protected positions is modelled as a `List (ℕ × ℕ)`;
  only membership is ever consulted, so duplicates are irrelevant.
* The `indent_level` counter is an `Int`, exactly as a Python `int`, so the
  `max(0, indent_level - 1)` floor is modelled literally.
-/

namespace BraceToWs

/-- The whitespace characters stripped by Python's `str.strip()` /
`str.lstrip()` / `str.rstrip()` (ASCII range). -/
def pyspace (c : Char) : Bool :=
  c == ' ' || c == '\t' || c == '\n' || c == '\r' || c == '\x0b' || c == '\x0c'

/-- Python `s.lstrip()`. -/
def lstrip (s : List Char) : List Char := s.dropWhile pyspace

/-- Python `s.rstrip()`. -/
def rstrip (s : List Char) : List Char := (s.reverse.dropWhile pyspace).reverse

/-- Python `s.strip()`. -/
def strip (s : List Char) : List Char := lstrip (rstrip s)

/-- Python `s.startswith(p)`. -/
def startswith : List Char → List Char → Bool
  | _, [] => true
  | [], _ :: _ => false
  | c :: s, p :: ps => c == p && startswith s ps

/-- Python `s.endswith(c)` for a single character `c`. -/
def endswith (s : List Char) (c : Char) : Bool := s.getLast? == some c

/-- Python `code.splitlines(keepends=False)` restricted to `'\n'` endings:
`"" ↦ []`, a trailing `'\n'` produces no extra empty line. -/
def splitlines : List Char → List (List Char)
  | [] => []
  | c :: rest =>
    if c = '\n' then [] :: splitlines rest
    else
      match splitlines rest with
      | [] => [[c]]
      | l :: ls => (c :: l) :: ls

/-- Python `code.splitlines(keepends=True)` restricted to `'\n'` endings. -/
def splitlinesKeep : List Char → List (List Char)
  | [] => []
  | c :: rest =>
    if c = '\n' then ['\n'] :: splitlinesKeep rest
    else
      match splitlinesKeep rest with
      | [] => [[c]]
      | l :: ls => (c :: l) :: ls

/-- Python `'\n'.join(ls)`. -/
def joinLines : List (List Char) → List Char
  | [] => []
  | [l] => l
  | l :: ls => l ++ '\n' :: joinLines ls

/-- The classification of a token reported by the host tokenizer; only
`tokenize.STRING` and `tokenize.COMMENT` are distinguished, every other
token kind is `tother`. -/
inductive TokType where
  | tstring
  | tcomment
  | tother
deriving DecidableEq

/-- One token as reported by `tokenize.generate_tokens`: its type and its
1-based `start = (startLine, startCol)` / `end = (endLine, endCol)`
coordinates (end column exclusive). -/
structure Tok where
  ttype : TokType
  startLine : Nat
  startCol : Nat
  endLine : Nat
  endCol : Nat
deriving DecidableEq

/-- The exceptions `tokenize.generate_tokens` can raise mid-iteration,
split by whether the `except (tokenize.TokenError, ValueError)` clause of
`get_protected_positions` catches them: `tokenError` stands for
`tokenize.TokenError` or `ValueError` (caught), `indentationError` stands
for `IndentationError` / `TabError` — `SyntaxError` subclasses the clause
does not catch, so they propagate. -/
inductive LexError where
  | tokenError
  | indentationError
deriving DecidableEq

instance {ε α : Type} [DecidableEq ε] [DecidableEq α] :
    DecidableEq (Except ε α) := fun x y =>
  match x, y with
  | Except.error e1, Except.error e2 =>
    if h : e1 = e2 then isTrue (by rw [h])
    else isFalse (fun he => h (by injection he))
  | Except.error _, Except.ok _ => isFalse (fun he => by injection he)
  | Except.ok _, Except.error _ => isFalse (fun he => by injection he)
  | Except.ok a1, Except.ok a2 =>
    if h : a1 = a2 then isTrue (by rw [h])
    else isFalse (fun he => h (by injection he))

/-- The protected positions contributed by one string/comment token
(the body of the `for token` loop in `get_protected_positions`):
`sl`/`el` are the 0-based line indices; a single-line token marks
`[sc, ec)` on its line; a multi-line token marks `[sc, line_len)` on its
first line, all columns of interior lines, and `[0, min(ec, line_len))` on
its last line, skipping line indices beyond the line list. -/
def tokenPositions (lines : List (List Char)) (t : Tok) : List (Nat × Nat) :=
  let sl := t.startLine - 1
  let el := t.endLine - 1
  if sl = el then
    (List.range' t.startCol (t.endCol - t.startCol)).map (fun c => (sl, c))
  else
    (List.range' sl (el + 1 - sl)).foldr
      (fun lineIdx acc =>
        if lineIdx ≥ lines.length then acc
        else
          let lineLen := (lines.getD lineIdx []).length
          let p : Nat × Nat :=
            if lineIdx = sl then (t.startCol, lineLen)
            else if lineIdx = el then (0, min t.endCol lineLen)
            else (0, lineLen)
          ((List.range' p.1 (p.2 - p.1)).map (fun c => (lineIdx, c))) ++ acc)
      []

/-- The accumulation loop of `get_protected_positions`: walk the token
stream, adding the positions of every STRING/COMMENT token.  A
`TokenError`/`ValueError` ends the walk and the positions accumulated so
far are returned (the `except (tokenize.TokenError, ValueError): pass`);
an `IndentationError`/`TabError` is caught by neither clause, so it
propagates (`Except.error`). -/
def gppAux (lines : List (List Char)) :
    List (Nat × Nat) → List (Except LexError Tok) →
      Except LexError (List (Nat × Nat))
  | acc, [] => Except.ok acc
  | acc, (Except.error LexError.tokenError) :: _ => Except.ok acc
  | _, (Except.error LexError.indentationError) :: _ =>
    Except.error LexError.indentationError
  | acc, (Except.ok t) :: rest =>
    gppAux lines
      (acc ++
        (if t.ttype = TokType.tstring ∨ t.ttype = TokType.tcomment then
          tokenPositions lines t
        else []))
      rest

/-- `get_protected_positions(code)`: the set of `(line_index, char_index)`
coordinates inside strings or comments, computed from the token stream the
host tokenizer yields for `code`; `Except.error` is the uncaught-exception
path. -/
def get_protected_positions (code : List Char)
    (stream : List (Except LexError Tok)) :
    Except LexError (List (Nat × Nat)) :=
  gppAux (splitlinesKeep code) [] stream

/-- `extract_comment_after_brace(text)`: the comment part after a brace, if
any (`stripped[stripped.index('#'):]` is everything from the first `'#'`
onward, i.e. `dropWhile (· ≠ '#')`). -/
def extract_comment_after_brace (text : List Char) : List Char :=
  let stripped := lstrip text
  if startswith stripped ['#'] then stripped
  else if '#' ∈ stripped then stripped.dropWhile (fun c => c ≠ '#')
  else []

/-- The colon-pattern half of `is_scoping_open_brace`: there is a `':'`
before the brace, only whitespace stands between the last `':'` and the
brace (`before[before.rindex(':')+1:]` is the reversed `takeWhile` below),
and everything after the brace is empty or starts a comment. -/
def colon_open_pattern (line : List Char) (pos : Nat) : Bool :=
  let before := line.take pos
  let after := line.drop (pos + 1)
  if ':' ∈ before then
    (strip ((before.reverse.takeWhile (fun c => c ≠ ':')).reverse)).isEmpty &&
      ((strip after).isEmpty || startswith (strip after) ['#'])
  else false

/-- `is_scoping_open_brace(line, pos, line_idx, protected)`. -/
def is_scoping_open_brace (line : List Char) (pos : Nat) (lineIdx : Nat)
    (prot : List (Nat × Nat)) : Bool :=
  if (lineIdx, pos) ∈ prot then false
  else if colon_open_pattern line pos then true
  else
    let stripped := strip line
    stripped == ['\x7b'] ||
      (startswith stripped ['\x7b'] &&
        !(extract_comment_after_brace (stripped.drop 1)).isEmpty)

/-- `is_scoping_close_brace(line, pos, line_idx, protected)`. -/
def is_scoping_close_brace (line : List Char) (pos : Nat) (lineIdx : Nat)
    (prot : List (Nat × Nat)) : Bool :=
  if (lineIdx, pos) ∈ prot then false
  else
    let stripped := strip line
    if stripped == ['\x7d'] then true
    else if startswith stripped ['\x7d'] then
      (lstrip (stripped.drop 1)).isEmpty ||
        startswith (lstrip (stripped.drop 1)) ['#']
    else false

/-- Which kind of scoping brace the per-line scan found. -/
inductive BraceKind where
  | bopen
  | bclose
deriving DecidableEq

/-- The `while i < len(line)` scan of `convert_curly_to_indented`: find the
first index holding a scoping open or close brace.  `suffix` is
`line.drop i`; the scan is started with `suffix = line`, `i = 0`. -/
def findBraceFrom (line : List Char) (lineIdx : Nat) (prot : List (Nat × Nat)) :
    List Char → Nat → Option (Nat × BraceKind)
  | [], _ => none
  | c :: rest, i =>
    if c == '\x7b' && is_scoping_open_brace line i lineIdx prot then
      some (i, BraceKind.bopen)
    else if c == '\x7d' && is_scoping_close_brace line i lineIdx prot then
      some (i, BraceKind.bclose)
    else findBraceFrom line lineIdx prot rest (i + 1)

/-- The first scoping brace of a line, if any. -/
def findBrace (line : List Char) (lineIdx : Nat) (prot : List (Nat × Nat)) :
    Option (Nat × BraceKind) :=
  findBraceFrom line lineIdx prot line 0

/-- `"    " * depth` (four spaces per indentation level; negative depths,
which in fact never occur, give the empty prefix exactly as in Python). -/
def indentStr (depth : Int) : List Char := List.replicate (4 * depth.toNat) ' '

/-- The body of the `for line_idx, orig_line in enumerate(lines)` loop:
process one source line at the current indentation depth, producing the
emitted output lines (zero or one) and the updated depth. -/
def processLine (prot : List (Nat × Nat)) (lineIdx : Nat) (indent : Int)
    (line : List Char) : List (List Char) × Int :=
  match findBrace line lineIdx prot with
  | some (i, BraceKind.bopen) =>
    let before := rstrip (line.take i)
    let comment := extract_comment_after_brace (line.drop (i + 1))
    let emitted :=
      if before ≠ [] ∨ comment ≠ [] then
        [before ++ (if comment ≠ [] then
            (if before ≠ [] then [' ', ' '] else []) ++ comment
          else [])]
      else []
    (emitted, indent + 1)
  | some (i, BraceKind.bclose) =>
    let newIndent := max 0 (indent - 1)
    let comment := extract_comment_after_brace (line.drop (i + 1))
    ((if comment ≠ [] then [indentStr newIndent ++ comment] else []), newIndent)
  | none =>
    let stripped := lstrip line
    (if stripped ≠ [] then [indentStr indent ++ stripped] else [[]], indent)

/-- The whole per-line pass: fold `processLine` over the lines, threading
the line index and the depth, concatenating the emitted lines. -/
def processLinesFrom (prot : List (Nat × Nat)) :
    Nat → Int → List (List Char) → List (List Char)
  | _, _, [] => []
  | lineIdx, indent, l :: rest =>
    (processLine prot lineIdx indent l).1 ++
      processLinesFrom prot (lineIdx + 1) (processLine prot lineIdx indent l).2 rest

/-- The depth after the per-line pass (the final value of `indent_level`). -/
def indentAfter (prot : List (Nat × Nat)) : Nat → Int → List (List Char) → Int
  | _, indent, [] => indent
  | lineIdx, indent, l :: rest =>
    indentAfter prot (lineIdx + 1) (processLine prot lineIdx indent l).2 rest

/-- The blank-collapse loop, with the accepted lines accumulated in reverse:
a blank line is skipped when the most recently accepted line is blank
(`line == '' and cleaned_lines and cleaned_lines[-1] == ''`). -/
def cleanAux : List (List Char) → List (List Char) → List (List Char)
  | acc, [] => acc.reverse
  | acc, l :: rest =>
    if l = [] ∧ acc.head? = some [] then cleanAux acc rest
    else cleanAux (l :: acc) rest

/-- The blank-collapse post-pass of `convert_curly_to_indented`. -/
def removeBlankRuns (ls : List (List Char)) : List (List Char) := cleanAux [] ls

/-- `convert_curly_to_indented(code)`, parameterised by the host tokenizer's
token stream for `code`.  The trivial-input check precedes the lexing call,
exactly as in the source; an exception escaping `get_protected_positions`
propagates out of the conversion (`Except.error`). -/
def convert_curly_to_indented (stream : List (Except LexError Tok))
    (code : List Char) : Except LexError (List Char) :=
  if strip code = [] then Except.ok code
  else
    match get_protected_positions code stream with
    | Except.error e => Except.error e
    | Except.ok prot =>
      let outputLines := processLinesFrom prot 0 0 (splitlines code)
      let result := joinLines (removeBlankRuns outputLines)
      Except.ok (if endswith code '\n' then result ++ ['\n'] else result)

/-! ## Generic facts about the per-line step -/

theorem processLine_none_eq (prot : List (Nat × Nat)) (lineIdx : Nat)
    (d : Int) (line : List Char) (h : findBrace line lineIdx prot = none) :
    processLine prot lineIdx d line =
      ((if lstrip line ≠ [] then [indentStr d ++ lstrip line] else [[]]), d) := by
  unfold processLine
  rw [h]

theorem processLine_open_eq (prot : List (Nat × Nat)) (lineIdx : Nat)
    (d : Int) (line : List Char) (i : Nat)
    (h : findBrace line lineIdx prot = some (i, BraceKind.bopen)) :
    processLine prot lineIdx d line =
      ((if rstrip (line.take i) ≠ [] ∨
            extract_comment_after_brace (line.drop (i + 1)) ≠ [] then
          [rstrip (line.take i) ++
            (if extract_comment_after_brace (line.drop (i + 1)) ≠ [] then
              (if rstrip (line.take i) ≠ [] then [' ', ' '] else []) ++
                extract_comment_after_brace (line.drop (i + 1))
            else [])]
        else []), d + 1) := by
  unfold processLine
  rw [h]

theorem processLine_close_eq (prot : List (Nat × Nat)) (lineIdx : Nat)
    (d : Int) (line : List Char) (i : Nat)
    (h : findBrace line lineIdx prot = some (i, BraceKind.bclose)) :
    processLine prot lineIdx d line =
      ((if extract_comment_after_brace (line.drop (i + 1)) ≠ [] then
          [indentStr (max 0 (d - 1)) ++
            extract_comment_after_brace (line.drop (i + 1))]
        else []), max 0 (d - 1)) := by
  unfold processLine
  rw [h]

theorem processLine_indent_nonneg (prot : List (Nat × Nat)) (lineIdx : Nat)
    (d : Int) (line : List Char) (hd : 0 ≤ d) :
    0 ≤ (processLine prot lineIdx d line).2 := by
  unfold processLine
  cases hfb : findBrace line lineIdx prot with
  | none => simpa using hd
  | some v =>
    obtain ⟨i, k⟩ := v
    cases k with
    | bopen => simp; omega
    | bclose => simp

theorem indentAfter_nonneg (prot : List (Nat × Nat)) :
    ∀ (ls : List (List Char)) (lineIdx : Nat) (d : Int),
      0 ≤ d → 0 ≤ indentAfter prot lineIdx d ls := by
  intro ls
  induction ls with
  | nil => intro lineIdx d hd; simpa [indentAfter] using hd
  | cons l rest ih =>
    intro lineIdx d hd
    exact ih (lineIdx + 1) _ (processLine_indent_nonneg prot lineIdx d l hd)

/-! ## Claim theorems -/

/-- C1: the claim fails on the code.  On `"if x:\n    a\n  b\n"` the
tokenizer yields a few non-string/comment tokens (one shown; they
contribute no positions) and then raises `IndentationError` at the
inconsistent dedent of line 3 — an exception the
`except (tokenize.TokenError, ValueError)` clause does not catch — so the
Lexical Protector propagates it and `convert` raises instead of returning a
string.  With a caught `TokenError` at the same point the protector returns
the positions accumulated before the failure and the conversion completes,
which is the behaviour the claim (and the spec) require of every tokenizer
error. -/
theorem conversion_raises_on_indentation_error :
    get_protected_positions ("if x:\n    a\n  b\n".toList)
        [Except.ok ⟨TokType.tother, 1, 0, 1, 2⟩,
          Except.error LexError.indentationError] =
      Except.error LexError.indentationError ∧
    convert_curly_to_indented
        [Except.ok ⟨TokType.tother, 1, 0, 1, 2⟩,
          Except.error LexError.indentationError]
        ("if x:\n    a\n  b\n".toList) =
      Except.error LexError.indentationError ∧
    get_protected_positions ("if x:\n    a\n  b\n".toList)
        [Except.ok ⟨TokType.tother, 1, 0, 1, 2⟩,
          Except.error LexError.tokenError] =
      Except.ok [] ∧
    convert_curly_to_indented
        [Except.ok ⟨TokType.tother, 1, 0, 1, 2⟩,
          Except.error LexError.tokenError]
        ("if x:\n    a\n  b\n".toList) =
      Except.ok ("if x:\na\nb\n".toList) := by
  refine ⟨by decide, by decide, by decide, by decide⟩

/-- C2: a brace whose coordinate is in the protected-position set is never
scoping: both classifiers answer `false` regardless of the line's content
around it. -/
theorem protected_positions_never_scoping (line : List Char) (pos lineIdx : Nat)
    (prot : List (Nat × Nat)) (h : (lineIdx, pos) ∈ prot) :
    is_scoping_open_brace line pos lineIdx prot = false ∧
    is_scoping_close_brace line pos lineIdx prot = false := by
  constructor
  · unfold is_scoping_open_brace
    rw [if_pos h]
  · unfold is_scoping_close_brace
    rw [if_pos h]

/-- Witness for C2: the line `"{"` alone would be a scoping open brace, but
protecting coordinate `(0, 0)` vetoes it. -/
theorem protected_positions_never_scoping_witness :
    ((0, 0) ∈ [((0 : Nat), (0 : Nat))]) ∧
    (is_scoping_open_brace ['\x7b'] 0 0 [(0, 0)] = false ∧
      is_scoping_close_brace ['\x7b'] 0 0 [(0, 0)] = false) :=
  ⟨by decide, protected_positions_never_scoping ['\x7b'] 0 0 [(0, 0)] (by decide)⟩

/-- C5: when the per-line scan finds a scoping close brace at column `i`,
the depth is decremented with a floor at zero (`max 0 (d - 1)`), the line
emits only its trailing comment — indented at the post-decrement depth — or
nothing at all when there is no comment; the depth counter can never become
negative on any input, so an excess of closing braces is harmless. -/
theorem close_brace_floor_and_emission (prot : List (Nat × Nat)) (lineIdx : Nat)
    (d : Int) (line : List Char) (i : Nat)
    (h : findBrace line lineIdx prot = some (i, BraceKind.bclose)) :
    processLine prot lineIdx d line =
      ((if extract_comment_after_brace (line.drop (i + 1)) ≠ [] then
          [indentStr (max 0 (d - 1)) ++
            extract_comment_after_brace (line.drop (i + 1))]
        else []), max 0 (d - 1)) ∧
    (0 : Int) ≤ max 0 (d - 1) ∧
    ∀ (lineIdx0 : Nat) (d0 : Int) (ls : List (List Char)),
      0 ≤ d0 → 0 ≤ indentAfter prot lineIdx0 d0 ls := by
  refine ⟨?_, le_max_left 0 (d - 1), fun lineIdx0 d0 ls hd0 =>
    indentAfter_nonneg prot ls lineIdx0 d0 hd0⟩
  unfold processLine
  rw [h]

/-- Witness for C5: a bare `"}"` line at depth 0 — the close in excess of
any open — emits nothing and floors the depth at 0. -/
theorem close_brace_floor_and_emission_witness :
    findBrace ("\x7d".toList) 0 [] = some (0, BraceKind.bclose) ∧
    (processLine [] 0 0 ("\x7d".toList) =
      ((if extract_comment_after_brace (("\x7d".toList).drop (0 + 1)) ≠ [] then
          [indentStr (max 0 ((0 : Int) - 1)) ++
            extract_comment_after_brace (("\x7d".toList).drop (0 + 1))]
        else []), max 0 ((0 : Int) - 1)) ∧
    (0 : Int) ≤ max 0 ((0 : Int) - 1) ∧
    ∀ (lineIdx0 : Nat) (d0 : Int) (ls : List (List Char)),
      0 ≤ d0 → 0 ≤ indentAfter [] lineIdx0 d0 ls) :=
  ⟨by decide, close_brace_floor_and_emission [] 0 0 ("\x7d".toList) 0 (by decide)⟩

/-- C9: when the per-line scan finds a scoping open brace at column `i`, the
emitted header line is exactly the right-trimmed pre-brace text (plus the
trailing comment, two spaces apart, when both are present): no indentation
prefix is added, in particular not the incremented block's, and the emission
does not depend on the current depth at all; the depth is incremented
afterwards. -/
theorem open_brace_header_emission (prot : List (Nat × Nat)) (lineIdx : Nat)
    (d : Int) (line : List Char) (i : Nat)
    (h : findBrace line lineIdx prot = some (i, BraceKind.bopen)) :
    processLine prot lineIdx d line =
      ((if rstrip (line.take i) ≠ [] ∨
            extract_comment_after_brace (line.drop (i + 1)) ≠ [] then
          [rstrip (line.take i) ++
            (if extract_comment_after_brace (line.drop (i + 1)) ≠ [] then
              (if rstrip (line.take i) ≠ [] then [' ', ' '] else []) ++
                extract_comment_after_brace (line.drop (i + 1))
            else [])]
        else []), d + 1) ∧
    (processLine prot lineIdx d line).1 = (processLine prot lineIdx 0 line).1 := by
  constructor
  · unfold processLine
    rw [h]
  · unfold processLine
    rw [h]

/-- Witness for C9: the header of `"if x: {"` at depth 2 is emitted as
`"if x:"` with no indentation prefix, and the depth becomes 3. -/
theorem open_brace_header_emission_witness :
    findBrace ("if x: \x7b".toList) 0 [] = some (6, BraceKind.bopen) ∧
    (processLine [] 0 2 ("if x: \x7b".toList) =
      ((if rstrip (("if x: \x7b".toList).take 6) ≠ [] ∨
            extract_comment_after_brace (("if x: \x7b".toList).drop (6 + 1)) ≠ [] then
          [rstrip (("if x: \x7b".toList).take 6) ++
            (if extract_comment_after_brace (("if x: \x7b".toList).drop (6 + 1)) ≠ [] then
              (if rstrip (("if x: \x7b".toList).take 6) ≠ [] then [' ', ' '] else []) ++
                extract_comment_after_brace (("if x: \x7b".toList).drop (6 + 1))
            else [])]
        else []), (2 : Int) + 1) ∧
    (processLine [] 0 2 ("if x: \x7b".toList)).1 =
      (processLine [] 0 0 ("if x: \x7b".toList)).1) :=
  ⟨by decide, open_brace_header_emission [] 0 2 ("if x: \x7b".toList) 6 (by decide)⟩

/-- C4 counterexample: on the spec's Scenario 2 input the conversion does
not produce the claimed output — the close-brace comment is emitted at the
post-decrement depth 0, i.e. with no indentation, not with four spaces.
The token stream holds the one COMMENT token the host tokenizer reports for
this input (`"# done"`, line 3, columns 2–8). -/
theorem scenario_two_claim_false :
    convert_curly_to_indented [Except.ok ⟨TokType.tcomment, 3, 2, 3, 8⟩]
        ("if x: \x7b\n    y()\n\x7d # done\n".toList) ≠
      Except.ok ("if x:\n    y()\n    # done\n".toList) := by
  decide

/-- C4 amended: on the Scenario 2 input the conversion yields
`"if x:\n    y()\n# done\n"` — the close-brace comment appears alone on its
line with no indentation, matching the post-decrement depth 0. -/
theorem scenario_two_actual_output :
    convert_curly_to_indented [Except.ok ⟨TokType.tcomment, 3, 2, 3, 8⟩]
        ("if x: \x7b\n    y()\n\x7d # done\n".toList) =
      Except.ok ("if x:\n    y()\n# done\n".toList) := by
  decide

theorem processLine_no_brace_depth_zero (prot : List (Nat × Nat))
    (lineIdx : Nat) (l : List Char) (h0 : findBrace l lineIdx prot = none) :
    processLine prot lineIdx 0 l = ([lstrip l], 0) := by
  unfold processLine
  rw [h0]
  by_cases hs : lstrip l = []
  · simp [hs, indentStr]
  · simp [hs, indentStr]

theorem processLines_no_brace (prot : List (Nat × Nat)) :
    ∀ (ls : List (List Char)) (lineIdx : Nat),
      (∀ k, k < ls.length → findBrace (ls.getD k []) (lineIdx + k) prot = none) →
      processLinesFrom prot lineIdx 0 ls = ls.map lstrip ∧
        indentAfter prot lineIdx 0 ls = 0 := by
  intro ls
  induction ls with
  | nil => intro lineIdx h; exact ⟨rfl, rfl⟩
  | cons l rest ih =>
    intro lineIdx h
    have h0 : findBrace l lineIdx prot = none := by
      simpa using h 0 (by simp)
    have hl := processLine_no_brace_depth_zero prot lineIdx l h0
    have hrest := ih (lineIdx + 1) (fun k hk => by
      have := h (k + 1) (by simpa using Nat.succ_lt_succ hk)
      simpa [Nat.add_assoc, Nat.add_comm 1 k] using this)
    constructor
    · unfold processLinesFrom
      rw [hl, hrest.1]
      rfl
    · unfold indentAfter
      rw [hl]
      exact hrest.2

/-- C3 counterexample: the input `"  x\n"` contains no brace at all (so in
particular no scoping brace, as the per-line scan confirms), yet the
conversion does not return it unchanged: the leading whitespace of the line
is stripped, giving `"x\n"`. -/
theorem no_scoping_braces_claim_false :
    ('\x7b' ∉ ("  x\n".toList) ∧ '\x7d' ∉ ("  x\n".toList)) ∧
    get_protected_positions ("  x\n".toList) [] = Except.ok [] ∧
    (∀ k, k < (splitlines ("  x\n".toList)).length →
      findBrace ((splitlines ("  x\n".toList)).getD k []) k [] = none) ∧
    convert_curly_to_indented [] ("  x\n".toList) ≠
      Except.ok ("  x\n".toList) := by
  refine ⟨by decide, by decide, by decide, by decide⟩

/-- C3 amended: converting text on which no line carries a scoping brace
returns the text with each line's leading whitespace removed and blank-line
runs collapsed (trivial input is returned verbatim, and the trailing-newline
treatment is as usual); the indentation depth stays 0 throughout the run. -/
theorem no_scoping_braces_conversion (stream : List (Except LexError Tok))
    (code : List Char) (prot : List (Nat × Nat))
    (hp : get_protected_positions code stream = Except.ok prot)
    (h : ∀ k, k < (splitlines code).length →
      findBrace ((splitlines code).getD k []) k prot = none) :
    convert_curly_to_indented stream code =
      Except.ok (if strip code = [] then code
       else if endswith code '\n' then
         joinLines (removeBlankRuns ((splitlines code).map lstrip)) ++ ['\n']
       else joinLines (removeBlankRuns ((splitlines code).map lstrip))) ∧
    indentAfter prot 0 0 (splitlines code) = 0 := by
  have key := processLines_no_brace prot
    (splitlines code) 0 (fun k hk => by simpa using h k hk)
  refine ⟨?_, key.2⟩
  unfold convert_curly_to_indented
  rw [hp]
  simp only [key.1]
  by_cases ht : strip code = []
  · rw [if_pos ht, if_pos ht]
  · rw [if_neg ht, if_neg ht]

/-- Witness for C3: on `"a\n\n\nb\n"` (no braces anywhere) the conversion
yields the lstripped, blank-collapsed text `"a\n\nb\n"` and the depth stays
0. -/
theorem no_scoping_braces_conversion_witness :
    (get_protected_positions ("a\n\n\nb\n".toList) [] = Except.ok [] ∧
    (∀ k, k < (splitlines ("a\n\n\nb\n".toList)).length →
      findBrace ((splitlines ("a\n\n\nb\n".toList)).getD k []) k [] = none)) ∧
    (convert_curly_to_indented [] ("a\n\n\nb\n".toList) =
      Except.ok (if strip ("a\n\n\nb\n".toList) = [] then ("a\n\n\nb\n".toList)
       else if endswith ("a\n\n\nb\n".toList) '\n' then
         joinLines (removeBlankRuns ((splitlines ("a\n\n\nb\n".toList)).map lstrip)) ++ ['\n']
       else joinLines (removeBlankRuns ((splitlines ("a\n\n\nb\n".toList)).map lstrip))) ∧
    indentAfter [] 0 0 (splitlines ("a\n\n\nb\n".toList)) = 0) :=
  ⟨⟨by decide, by decide⟩,
    no_scoping_braces_conversion [] ("a\n\n\nb\n".toList) [] (by decide) (by decide)⟩

/-! ## Comment-extraction facts needed for the open-brace classifier -/

theorem mem_of_mem_dropWhile {p : Char → Bool} {c : Char} :
    ∀ {l : List Char}, c ∈ l.dropWhile p → c ∈ l := by
  intro l
  induction l with
  | nil => intro h; simp at h
  | cons a rest ih =>
    intro h
    rw [List.dropWhile_cons] at h
    by_cases hp : p a
    · simp only [hp, if_true] at h
      exact List.mem_cons_of_mem a (ih h)
    · simp only [hp, if_false] at h
      simpa using h

theorem mem_lstrip_of_not_space {c : Char} (hc : pyspace c = false) :
    ∀ {s : List Char}, c ∈ s → c ∈ lstrip s := by
  intro s hs
  have hsplit : s.takeWhile pyspace ++ s.dropWhile pyspace = s :=
    List.takeWhile_append_dropWhile pyspace s
  rw [← hsplit] at hs
  rcases List.mem_append.mp hs with h | h
  · have := List.mem_takeWhile_imp h
    rw [hc] at this
    exact absurd this (by simp)
  · exact h

theorem extract_comment_ne_nil_iff (text : List Char) :
    extract_comment_after_brace text ≠ [] ↔ '#' ∈ text := by
  unfold extract_comment_after_brace
  by_cases hsw : startswith (lstrip text) ['#'] = true
  · rw [if_pos hsw]
    cases hl : lstrip text with
    | nil => rw [hl] at hsw; exact absurd hsw (by decide)
    | cons a rest =>
      rw [hl] at hsw
      have ha : a = '#' := by
        unfold startswith at hsw
        rw [Bool.and_eq_true] at hsw
        exact eq_of_beq hsw.1
      constructor
      · intro _
        have : '#' ∈ lstrip text := by rw [hl, ha]; exact List.mem_cons_self _ _
        exact mem_of_mem_dropWhile this
      · intro _
        simp [hl]
  · rw [if_neg hsw]
    by_cases hmem : '#' ∈ lstrip text
    · rw [if_pos hmem]
      constructor
      · intro _
        exact mem_of_mem_dropWhile hmem
      · intro _
        intro hnil
        rw [List.dropWhile_eq_nil_iff] at hnil
        have := hnil '#' hmem
        simp at this
    · rw [if_neg hmem]
      constructor
      · intro h; exact absurd rfl h
      · intro h
        exact absurd (mem_lstrip_of_not_space (by decide) h) hmem

/-- C8 counterexample: the line `"{ x = 1 # c"` does not match the colon
pattern, its trimmed form is not solely `"{"`, and what follows the brace is
other code rather than directly a comment — yet the classifier marks the
brace as a scoping open. -/
theorem open_brace_alone_claim_false :
    is_scoping_open_brace ("\x7b x = 1 # c".toList) 0 0 [] = true ∧
    colon_open_pattern ("\x7b x = 1 # c".toList) 0 = false ∧
    strip ("\x7b x = 1 # c".toList) ≠ ['\x7b'] ∧
    startswith (lstrip ((strip ("\x7b x = 1 # c".toList)).drop 1)) ['#'] = false := by
  refine ⟨by decide, by decide, by decide, by decide⟩

/-- C8 amended: outside the protected set and failing the colon pattern, an
open brace is recognized as scoping exactly when the trimmed line is `"{"`,
or starts with `"{"` and a `'#'` occurs anywhere after it — intervening
non-comment code between the brace and the `'#'` is also accepted (and such
a brace line then emits only the part from the `'#'` on). -/
theorem open_brace_alone_characterization (line : List Char) (pos lineIdx : Nat)
    (prot : List (Nat × Nat)) (hp : (lineIdx, pos) ∉ prot)
    (hc : colon_open_pattern line pos = false) :
    is_scoping_open_brace line pos lineIdx prot = true ↔
      strip line = ['\x7b'] ∨
        (startswith (strip line) ['\x7b'] = true ∧ '#' ∈ (strip line).drop 1) := by
  unfold is_scoping_open_brace
  rw [if_neg hp, hc]
  simp only [Bool.false_eq_true, if_false, Bool.or_eq_true, Bool.and_eq_true,
    beq_iff_eq, Bool.not_eq_true', List.isEmpty_eq_false,
    extract_comment_ne_nil_iff]

/-- Witness for C8: `"{  # hey"` (brace alone, then a comment) is a scoping
open brace. -/
theorem open_brace_alone_characterization_witness :
    ((0, 0) ∉ ([] : List (Nat × Nat)) ∧
      colon_open_pattern ("\x7b  # hey".toList) 0 = false) ∧
    is_scoping_open_brace ("\x7b  # hey".toList) 0 0 [] = true :=
  ⟨⟨by decide, by decide⟩,
    (open_brace_alone_characterization ("\x7b  # hey".toList) 0 0 []
      (by decide) (by decide)).mpr (by decide)⟩

/-! ## Facts about line splitting and joining -/

theorem splitlines_no_newline : ∀ (s : List Char), ∀ l ∈ splitlines s, '\n' ∉ l := by
  intro s
  induction s with
  | nil => intro l hl; simp [splitlines] at hl
  | cons c rest ih =>
    intro l hl
    rw [splitlines] at hl
    by_cases hc : c = '\n'
    · rw [if_pos hc] at hl
      rcases List.mem_cons.mp hl with h | h
      · rw [h]; simp
      · exact ih l h
    · rw [if_neg hc] at hl
      cases hsp : splitlines rest with
      | nil =>
        rw [hsp] at hl
        simp only [List.mem_singleton] at hl
        rw [hl]
        intro hmem
        rcases List.mem_singleton.mp hmem with h2
        exact hc h2.symm
      | cons hd tl =>
        rw [hsp] at hl
        rcases List.mem_cons.mp hl with h | h
        · rw [h]
          intro hmem
          rcases List.mem_cons.mp hmem with h2 | h2
          · exact hc h2.symm
          · exact ih hd (by rw [hsp]; exact List.mem_cons_self _ _) h2
        · exact ih l (by rw [hsp]; exact List.mem_cons_of_mem _ h)

theorem splitlines_append_newline (rest : List Char) :
    ∀ (l : List Char), '\n' ∉ l →
      splitlines (l ++ '\n' :: rest) = l :: splitlines rest := by
  intro l
  induction l with
  | nil => intro _; rw [List.nil_append, splitlines, if_pos rfl]
  | cons c tl ih =>
    intro h
    have hc : ¬ c = '\n' := fun e => h (by rw [e]; exact List.mem_cons_self _ _)
    have hm : '\n' ∉ tl := fun e => h (List.mem_cons_of_mem _ e)
    show splitlines (c :: (tl ++ '\n' :: rest)) = _
    rw [splitlines, if_neg hc, ih hm]

theorem splitlines_of_no_newline :
    ∀ (l : List Char), '\n' ∉ l → splitlines l = if l = [] then [] else [l] := by
  intro l
  induction l with
  | nil => intro _; rfl
  | cons c tl ih =>
    intro h
    have hc : ¬ c = '\n' := fun e => h (by rw [e]; exact List.mem_cons_self _ _)
    have hm : '\n' ∉ tl := fun e => h (List.mem_cons_of_mem _ e)
    rw [splitlines, if_neg hc, ih hm]
    by_cases ht : tl = []
    · simp [ht]
    · simp [ht]

theorem joinLines_eq_nil_iff : ∀ (ls : List (List Char)),
    joinLines ls = [] ↔ ls = [] ∨ ls = [[]] := by
  intro ls
  match ls with
  | [] => simp [joinLines]
  | [l] => simp [joinLines]
  | l :: l2 :: rest => simp [joinLines]

theorem splitlines_join_newline :
    ∀ (ls : List (List Char)), ls ≠ [] → (∀ l ∈ ls, '\n' ∉ l) →
      splitlines (joinLines ls ++ ['\n']) = ls := by
  intro ls
  induction ls with
  | nil => intro h; exact absurd rfl h
  | cons l rest ih =>
    intro _ hnl
    cases rest with
    | nil =>
      show splitlines (l ++ '\n' :: []) = [l]
      rw [splitlines_append_newline [] l (hnl l (List.mem_cons_self _ _))]
      rfl
    | cons l2 rest2 =>
      show splitlines ((l ++ '\n' :: joinLines (l2 :: rest2)) ++ ['\n']) = _
      rw [List.append_assoc, List.cons_append,
        splitlines_append_newline _ l (hnl l (List.mem_cons_self _ _)),
        ih (by simp) (fun x hx => hnl x (List.mem_cons_of_mem _ hx))]

theorem splitlines_join :
    ∀ (ls : List (List Char)), (∀ l ∈ ls, '\n' ∉ l) →
      splitlines (joinLines ls) =
        if ls.getLast? = some [] then ls.dropLast else ls := by
  intro ls
  induction ls with
  | nil => intro _; rfl
  | cons l rest ih =>
    intro hnl
    cases rest with
    | nil =>
      show splitlines l = _
      rw [splitlines_of_no_newline l (hnl l (List.mem_cons_self _ _))]
      by_cases hl : l = []
      · simp [hl]
      · simp [hl, List.getLast?_singleton]
    | cons l2 rest2 =>
      show splitlines (l ++ '\n' :: joinLines (l2 :: rest2)) = _
      rw [splitlines_append_newline _ l (hnl l (List.mem_cons_self _ _)),
        ih (fun x hx => hnl x (List.mem_cons_of_mem _ hx)),
        List.getLast?_cons_cons]
      by_cases hcond : (l2 :: rest2).getLast? = some ([] : List Char)
      · rw [if_pos hcond, if_pos hcond]
        rfl
      · rw [if_neg hcond, if_neg hcond]

theorem joinLines_endswith_newline :
    ∀ (ls : List (List Char)), (∀ l ∈ ls, '\n' ∉ l) →
      (endswith (joinLines ls) '\n' = true ↔
        ls.getLast? = some [] ∧ 2 ≤ ls.length) := by
  intro ls
  induction ls with
  | nil => intro _; simp [joinLines, endswith]
  | cons l rest ih =>
    intro hnl
    cases rest with
    | nil =>
      show endswith (joinLines [l]) '\n' = true ↔ _
      constructor
      · intro h
        exfalso
        unfold endswith at h
        have hlast : l.getLast? = some '\n' := by
          have := eq_of_beq h
          simpa [joinLines] using this
        exact hnl l (List.mem_cons_self _ _) (List.mem_of_mem_getLast? hlast)
      · rintro ⟨_, h2⟩
        simp at h2
    | cons l2 rest2 =>
      have hnl2 : ∀ x ∈ l2 :: rest2, '\n' ∉ x :=
        fun x hx => hnl x (List.mem_cons_of_mem _ hx)
      have hjoin : joinLines (l :: l2 :: rest2) = l ++ '\n' :: joinLines (l2 :: rest2) := rfl
      rw [hjoin]
      by_cases hJ : joinLines (l2 :: rest2) = []
      · have h1 : l2 :: rest2 = [[]] := by
          rcases (joinLines_eq_nil_iff (l2 :: rest2)).mp hJ with h | h
          · exact absurd h (by simp)
          · exact h
        have hl2 : l2 = [] := by injection h1
        have hrest2 : rest2 = [] := by injection h1 with h2 h3
        subst hl2; subst hrest2
        rw [hJ]
        constructor
        · intro _
          exact ⟨rfl, by simp⟩
        · intro _
          unfold endswith
          rw [List.getLast?_append_of_ne_nil l (by simp)]
          rfl
      · have hstep : endswith (l ++ '\n' :: joinLines (l2 :: rest2)) '\n' =
            endswith (joinLines (l2 :: rest2)) '\n' := by
          unfold endswith
          rw [List.getLast?_append_of_ne_nil l (by simp),
            show ('\n' :: joinLines (l2 :: rest2) : List Char) =
              ['\n'] ++ joinLines (l2 :: rest2) from rfl,
            List.getLast?_append_of_ne_nil ['\n'] hJ]
        rw [hstep, ih hnl2, List.getLast?_cons_cons]
        constructor
        · rintro ⟨h1, _⟩
          exact ⟨h1, by simp⟩
        · rintro ⟨h1, _⟩
          refine ⟨h1, ?_⟩
          cases rest2 with
          | nil =>
            exfalso
            have : l2 = [] := by simpa using h1
            rw [this] at hJ
            exact hJ rfl
          | cons a b => simp

/-! ## Facts about the blank-collapse pass -/

theorem cleanAux_chain :
    ∀ (ls acc : List (List Char)),
      List.Chain' (fun a b => a ≠ [] ∨ b ≠ []) acc →
      List.Chain' (fun a b => a ≠ [] ∨ b ≠ []) (cleanAux acc ls) := by
  intro ls
  induction ls with
  | nil =>
    intro acc hacc
    show List.Chain' _ acc.reverse
    rw [List.chain'_reverse]
    exact hacc.imp (fun a b h => h.symm)
  | cons l rest ih =>
    intro acc hacc
    rw [cleanAux]
    by_cases hcond : l = [] ∧ acc.head? = some []
    · rw [if_pos hcond]
      exact ih acc hacc
    · rw [if_neg hcond]
      apply ih
      rw [List.chain'_cons']
      refine ⟨?_, hacc⟩
      intro b hb
      by_cases hl : l = []
      · right
        intro hb0
        rw [Option.mem_def] at hb
        rw [hb0] at hb
        exact hcond ⟨hl, hb⟩
      · exact Or.inl hl

theorem cleanAux_mem :
    ∀ (ls acc : List (List Char)) (l : List Char),
      l ∈ cleanAux acc ls → l ∈ acc ∨ l ∈ ls := by
  intro ls
  induction ls with
  | nil =>
    intro acc l h
    exact Or.inl (List.mem_reverse.mp h)
  | cons hd tl ih =>
    intro acc l h
    rw [cleanAux] at h
    by_cases hcond : hd = [] ∧ acc.head? = some []
    · rw [if_pos hcond] at h
      rcases ih acc l h with h1 | h1
      · exact Or.inl h1
      · exact Or.inr (List.mem_cons_of_mem _ h1)
    · rw [if_neg hcond] at h
      rcases ih (hd :: acc) l h with h1 | h1
      · rcases List.mem_cons.mp h1 with h2 | h2
        · exact Or.inr (by rw [h2]; exact List.mem_cons_self _ _)
        · exact Or.inl h2
      · exact Or.inr (List.mem_cons_of_mem _ h1)

/-! ## Provenance of the characters of emitted lines -/

theorem mem_rstrip {c : Char} {s : List Char} (h : c ∈ rstrip s) : c ∈ s := by
  unfold rstrip at h
  rw [List.mem_reverse] at h
  exact List.mem_reverse.mp (mem_of_mem_dropWhile h)

theorem mem_extract_comment {c : Char} {s : List Char}
    (h : c ∈ extract_comment_after_brace s) : c ∈ s := by
  unfold extract_comment_after_brace at h
  by_cases h1 : startswith (lstrip s) ['#'] = true
  · rw [if_pos h1] at h
    exact mem_of_mem_dropWhile h
  · rw [if_neg h1] at h
    by_cases h2 : '#' ∈ lstrip s
    · rw [if_pos h2] at h
      exact mem_of_mem_dropWhile (mem_of_mem_dropWhile h)
    · rw [if_neg h2] at h
      simp at h

theorem processLine_char_provenance (prot : List (Nat × Nat)) (lineIdx : Nat)
    (d : Int) (line : List Char) :
    ∀ l ∈ (processLine prot lineIdx d line).1, ∀ c ∈ l, c = ' ' ∨ c ∈ line := by
  intro l hl c hc
  cases hfb : findBrace line lineIdx prot with
  | none =>
    rw [processLine_none_eq prot lineIdx d line hfb] at hl
    by_cases hs : lstrip line = []
    · rw [if_neg (fun hne => hne hs)] at hl
      rw [List.mem_singleton.mp hl] at hc
      simp at hc
    · rw [if_pos hs] at hl
      rw [List.mem_singleton.mp hl] at hc
      rcases List.mem_append.mp hc with h | h
      · exact Or.inl (List.eq_of_mem_replicate h)
      · exact Or.inr (mem_of_mem_dropWhile h)
  | some v =>
    obtain ⟨i, k⟩ := v
    cases k with
    | bopen =>
      rw [processLine_open_eq prot lineIdx d line i hfb] at hl
      by_cases hcond : rstrip (line.take i) ≠ [] ∨
          extract_comment_after_brace (line.drop (i + 1)) ≠ []
      · rw [if_pos hcond] at hl
        rw [List.mem_singleton.mp hl] at hc
        rcases List.mem_append.mp hc with h | h
        · exact Or.inr (List.mem_of_mem_take (mem_rstrip h))
        · by_cases hcom : extract_comment_after_brace (line.drop (i + 1)) ≠ []
          · rw [if_pos hcom] at h
            rcases List.mem_append.mp h with h2 | h2
            · by_cases hbef : rstrip (line.take i) ≠ []
              · rw [if_pos hbef] at h2
                rcases List.mem_cons.mp h2 with h3 | h3
                · exact Or.inl h3
                · exact Or.inl (List.mem_singleton.mp h3)
              · rw [if_neg hbef] at h2
                simp at h2
            · exact Or.inr (List.mem_of_mem_drop (mem_extract_comment h2))
          · rw [if_neg hcom] at h
            simp at h
      · rw [if_neg hcond] at hl
        simp at hl
    | bclose =>
      rw [processLine_close_eq prot lineIdx d line i hfb] at hl
      by_cases hcom : extract_comment_after_brace (line.drop (i + 1)) ≠ []
      · rw [if_pos hcom] at hl
        rw [List.mem_singleton.mp hl] at hc
        rcases List.mem_append.mp hc with h | h
        · exact Or.inl (List.eq_of_mem_replicate h)
        · exact Or.inr (List.mem_of_mem_drop (mem_extract_comment h))
      · rw [if_neg hcom] at hl
        simp at hl

theorem processLinesFrom_no_newline (prot : List (Nat × Nat)) :
    ∀ (ls : List (List Char)) (lineIdx : Nat) (d : Int),
      (∀ src ∈ ls, '\n' ∉ src) →
      ∀ l ∈ processLinesFrom prot lineIdx d ls, '\n' ∉ l := by
  intro ls
  induction ls with
  | nil => intro lineIdx d _ l hl; simp [processLinesFrom] at hl
  | cons hd tl ih =>
    intro lineIdx d h l hl
    rw [processLinesFrom] at hl
    rcases List.mem_append.mp hl with h1 | h1
    · intro hmem
      rcases processLine_char_provenance prot lineIdx d hd l h1 '\n' hmem with h2 | h2
      · exact absurd h2 (by decide)
      · exact h hd (List.mem_cons_self _ _) h2
    · exact ih (lineIdx + 1) _ (fun src hs => h src (List.mem_cons_of_mem _ hs)) l h1

/-- The retained output lines of a successful conversion run with protected
positions `prot`: the per-line pass followed by the blank-collapse pass (the
final output text is these lines joined by newlines, plus the round-trip
trailing newline). -/
def cleanedLines (prot : List (Nat × Nat)) (code : List Char) :
    List (List Char) :=
  removeBlankRuns (processLinesFrom prot 0 0 (splitlines code))

theorem convert_eq_joined (stream : List (Except LexError Tok))
    (code : List Char) (prot : List (Nat × Nat)) (h : strip code ≠ [])
    (hp : get_protected_positions code stream = Except.ok prot) :
    convert_curly_to_indented stream code =
      Except.ok (if endswith code '\n' then
        joinLines (cleanedLines prot code) ++ ['\n']
       else joinLines (cleanedLines prot code)) := by
  unfold convert_curly_to_indented cleanedLines
  rw [if_neg h, hp]

theorem convert_error_of_gpp_error (stream : List (Except LexError Tok))
    (code : List Char) (e : LexError) (h : strip code ≠ [])
    (hp : get_protected_positions code stream = Except.error e) :
    convert_curly_to_indented stream code = Except.error e := by
  unfold convert_curly_to_indented
  rw [if_neg h, hp]

theorem cleanedLines_no_newline (prot : List (Nat × Nat)) (code : List Char) :
    ∀ l ∈ cleanedLines prot code, '\n' ∉ l := by
  intro l hl
  rcases cleanAux_mem _ [] l hl with h | h
  · simp at h
  · exact processLinesFrom_no_newline _ _ 0 0
      (fun src hs => splitlines_no_newline code src hs) l h

theorem cleanedLines_chain (prot : List (Nat × Nat)) (code : List Char) :
    List.Chain' (fun a b => a ≠ [] ∨ b ≠ []) (cleanedLines prot code) :=
  cleanAux_chain _ [] List.chain'_nil

/-- C6 counterexample: the whitespace-only input `"\n\n"` is trivial, so the
conversion returns it unchanged, and its output lines are two consecutive
empty lines — the blank-line collapse guarantee does not extend to trivial
inputs. -/
theorem blank_collapse_claim_false :
    convert_curly_to_indented [] ("\n\n".toList) = Except.ok ("\n\n".toList) ∧
    splitlines ("\n\n".toList) = [[], []] ∧
    ¬ List.Chain' (fun a b => a ≠ [] ∨ b ≠ [])
        (splitlines ("\n\n".toList)) := by
  refine ⟨by decide, by decide, fun hc => ?_⟩
  rw [show splitlines ("\n\n".toList) = [[], []] from by decide] at hc
  rcases (List.chain'_cons.mp hc).1 with h | h
  · exact h rfl
  · exact h rfl

/-- C6 amended: for every non-trivial input (one whose `strip` is
non-empty), no two consecutive lines of the conversion's output are both
empty; a trivial (empty or whitespace-only) input is returned verbatim and
may retain consecutive blank lines. -/
theorem blank_collapse_nontrivial (stream : List (Except LexError Tok))
    (code out : List Char) (h : strip code ≠ [])
    (hout : convert_curly_to_indented stream code = Except.ok out) :
    List.Chain' (fun a b => a ≠ [] ∨ b ≠ []) (splitlines out) := by
  cases hp : get_protected_positions code stream with
  | error e =>
    rw [convert_error_of_gpp_error stream code e h hp] at hout
    exact absurd hout (by simp)
  | ok prot =>
    rw [convert_eq_joined stream code prot h hp] at hout
    have hout2 := (Except.ok.injEq _ _).mp hout
    rw [← hout2]
    have hnl := cleanedLines_no_newline prot code
    have hch := cleanedLines_chain prot code
    by_cases he : endswith code '\n' = true
    · rw [if_pos he]
      by_cases h0 : cleanedLines prot code = []
      · rw [h0]
        rw [show splitlines (joinLines [] ++ ['\n']) = [[]] from by decide]
        exact List.chain'_singleton _
      · rw [splitlines_join_newline _ h0 hnl]
        exact hch
    · rw [if_neg he, splitlines_join _ hnl]
      by_cases hlast : (cleanedLines prot code).getLast? = some ([] : List Char)
      · rw [if_pos hlast]
        exact hch.init
      · rw [if_neg hlast]
        exact hch

/-- Witness for C6: on the non-trivial input `"a\n\n\n\nb\n"` the conversion
succeeds with output `"a\n\nb\n"`, which has no two consecutive blank
lines. -/
theorem blank_collapse_nontrivial_witness :
    (strip ("a\n\n\n\nb\n".toList) ≠ [] ∧
      convert_curly_to_indented [] ("a\n\n\n\nb\n".toList) =
        Except.ok ("a\n\nb\n".toList)) ∧
    List.Chain' (fun a b => a ≠ [] ∨ b ≠ [])
      (splitlines ("a\n\nb\n".toList)) :=
  ⟨⟨by decide, by decide⟩,
    blank_collapse_nontrivial [] ("a\n\n\n\nb\n".toList) ("a\n\nb\n".toList)
      (by decide) (by decide)⟩

/-- C7 counterexample: the input `"a\n "` does not end with a newline (its
last line is the whitespace-only `" "`), but the conversion turns that last
line into an empty output line, so the joined output `"a\n"` does end with a
newline — the round-trip iff fails in the backward direction. -/
theorem newline_fidelity_claim_false :
    convert_curly_to_indented [] ("a\n ".toList) = Except.ok ("a\n".toList) ∧
    endswith ("a\n".toList) '\n' = true ∧
    endswith ("a\n ".toList) '\n' = false := by
  refine ⟨by decide, by decide, by decide⟩

/-- C7 amended: the output ends with a newline whenever the input does, and
a trivial input is returned verbatim; for a non-trivial input that does not
end with a newline, the output ends with a newline exactly when the final
retained output line is empty and is not the only retained line (which
happens when the last source line is whitespace-only but non-empty). -/
theorem newline_fidelity_characterization (stream : List (Except LexError Tok))
    (code out : List Char) (prot : List (Nat × Nat))
    (hp : get_protected_positions code stream = Except.ok prot)
    (hout : convert_curly_to_indented stream code = Except.ok out) :
    (endswith code '\n' = true → endswith out '\n' = true) ∧
    (strip code = [] → out = code) ∧
    (strip code ≠ [] → endswith code '\n' = false →
      (endswith out '\n' = true ↔
        (cleanedLines prot code).getLast? = some [] ∧
          2 ≤ (cleanedLines prot code).length)) := by
  refine ⟨?_, ?_, ?_⟩
  · intro he
    by_cases ht : strip code = []
    · unfold convert_curly_to_indented at hout
      rw [if_pos ht] at hout
      rw [← (Except.ok.injEq _ _).mp hout]
      exact he
    · rw [convert_eq_joined stream code prot ht hp] at hout
      rw [← (Except.ok.injEq _ _).mp hout, if_pos he]
      unfold endswith
      rw [List.getLast?_concat]
      rfl
  · intro ht
    unfold convert_curly_to_indented at hout
    rw [if_pos ht] at hout
    exact ((Except.ok.injEq _ _).mp hout).symm
  · intro ht he
    rw [convert_eq_joined stream code prot ht hp] at hout
    rw [← (Except.ok.injEq _ _).mp hout, if_neg (by rw [he]; simp)]
    exact joinLines_endswith_newline _ (cleanedLines_no_newline prot code)

/-- Witness for C7: the forward direction on `"x\n"` — input ends with a
newline, so does the output. -/
theorem newline_fidelity_characterization_witness :
    (get_protected_positions ("x\n".toList) [] = Except.ok [] ∧
      convert_curly_to_indented [] ("x\n".toList) = Except.ok ("x\n".toList) ∧
      endswith ("x\n".toList) '\n' = true) ∧
    endswith ("x\n".toList) '\n' = true :=
  ⟨⟨by decide, by decide, by decide⟩,
    (newline_fidelity_characterization [] ("x\n".toList) ("x\n".toList) []
      (by decide) (by decide)).1 (by decide)⟩

/-! ## No output line is whitespace-only -/

theorem dropWhile_head_false {p : Char → Bool} :
    ∀ {l : List Char} {c : Char} {rest : List Char},
      l.dropWhile p = c :: rest → p c = false := by
  intro l
  induction l with
  | nil => intro c rest h; simp at h
  | cons a tl ih =>
    intro c rest h
    rw [List.dropWhile_cons] at h
    by_cases hp : p a
    · rw [if_pos hp] at h
      exact ih h
    · rw [if_neg hp] at h
      injection h with h1 h2
      rw [← h1]
      exact eq_false_of_ne_true hp

theorem hash_mem_extract {s : List Char}
    (h : extract_comment_after_brace s ≠ []) :
    '#' ∈ extract_comment_after_brace s := by
  unfold extract_comment_after_brace at h ⊢
  by_cases h1 : startswith (lstrip s) ['#'] = true
  · rw [if_pos h1] at h ⊢
    cases hl : lstrip s with
    | nil => rw [hl] at h1; exact absurd h1 (by decide)
    | cons a rest =>
      have ha : a = '#' := by
        rw [hl] at h1
        unfold startswith at h1
        rw [Bool.and_eq_true] at h1
        exact eq_of_beq h1.1
      rw [ha]
      exact List.mem_cons_self _ _
  · rw [if_neg h1] at h ⊢
    by_cases h2 : '#' ∈ lstrip s
    · rw [if_pos h2] at h ⊢
      cases hd : (lstrip s).dropWhile (fun c => c ≠ '#') with
      | nil => exact absurd hd h
      | cons a rest =>
        have ha : a = '#' := by
          have := dropWhile_head_false hd
          simpa using this
        rw [ha]
        exact List.mem_cons_self _ _
    · rw [if_neg h2] at h
      exact absurd rfl h

theorem rstrip_has_nonspace {s : List Char} (h : rstrip s ≠ []) :
    ∃ c ∈ rstrip s, pyspace c = false := by
  unfold rstrip at h ⊢
  cases hd : s.reverse.dropWhile pyspace with
  | nil => rw [hd] at h; exact absurd rfl h
  | cons a rest =>
    refine ⟨a, ?_, dropWhile_head_false hd⟩
    rw [List.mem_reverse]
    exact List.mem_cons_self _ _

theorem processLine_blank_or_nonspace (prot : List (Nat × Nat)) (lineIdx : Nat)
    (d : Int) (line : List Char) :
    ∀ l ∈ (processLine prot lineIdx d line).1,
      l = [] ∨ ∃ c ∈ l, pyspace c = false := by
  intro l hl
  cases hfb : findBrace line lineIdx prot with
  | none =>
    rw [processLine_none_eq prot lineIdx d line hfb] at hl
    by_cases hs : lstrip line = []
    · rw [if_neg (fun hne => hne hs)] at hl
      exact Or.inl (List.mem_singleton.mp hl)
    · rw [if_pos hs] at hl
      rw [List.mem_singleton.mp hl]
      right
      cases hd : lstrip line with
      | nil => exact absurd hd hs
      | cons a rest =>
        refine ⟨a, ?_, dropWhile_head_false hd⟩
        apply List.mem_append_right
        exact List.mem_cons_self _ _
  | some v =>
    obtain ⟨i, k⟩ := v
    cases k with
    | bopen =>
      rw [processLine_open_eq prot lineIdx d line i hfb] at hl
      by_cases hcond : rstrip (line.take i) ≠ [] ∨
          extract_comment_after_brace (line.drop (i + 1)) ≠ []
      · rw [if_pos hcond] at hl
        rw [List.mem_singleton.mp hl]
        right
        by_cases hcom : extract_comment_after_brace (line.drop (i + 1)) ≠ []
        · refine ⟨'#', ?_, by decide⟩
          apply List.mem_append_right
          rw [if_pos hcom]
          exact List.mem_append_right _ (hash_mem_extract hcom)
        · have hbef : rstrip (line.take i) ≠ [] := by
            rcases hcond with h | h
            · exact h
            · exact absurd h hcom
          obtain ⟨c, hc1, hc2⟩ := rstrip_has_nonspace hbef
          exact ⟨c, List.mem_append_left _ hc1, hc2⟩
      · rw [if_neg hcond] at hl
        simp at hl
    | bclose =>
      rw [processLine_close_eq prot lineIdx d line i hfb] at hl
      by_cases hcom : extract_comment_after_brace (line.drop (i + 1)) ≠ []
      · rw [if_pos hcom] at hl
        rw [List.mem_singleton.mp hl]
        right
        exact ⟨'#', List.mem_append_right _ (hash_mem_extract hcom), by decide⟩
      · rw [if_neg hcom] at hl
        simp at hl

theorem processLinesFrom_blank_or_nonspace (prot : List (Nat × Nat)) :
    ∀ (ls : List (List Char)) (lineIdx : Nat) (d : Int),
      ∀ l ∈ processLinesFrom prot lineIdx d ls,
        l = [] ∨ ∃ c ∈ l, pyspace c = false := by
  intro ls
  induction ls with
  | nil => intro lineIdx d l hl; simp [processLinesFrom] at hl
  | cons hd tl ih =>
    intro lineIdx d l hl
    rw [processLinesFrom] at hl
    rcases List.mem_append.mp hl with h1 | h1
    · exact processLine_blank_or_nonspace prot lineIdx d hd l h1
    · exact ih (lineIdx + 1) _ l h1

theorem findBraceFrom_all_space (line : List Char) (lineIdx : Nat)
    (prot : List (Nat × Nat)) :
    ∀ (suf : List Char) (i : Nat), (∀ c ∈ suf, pyspace c = true) →
      findBraceFrom line lineIdx prot suf i = none := by
  intro suf
  induction suf with
  | nil => intro i _; rfl
  | cons a rest ih =>
    intro i hsp
    have ha : pyspace a = true := hsp a (List.mem_cons_self _ _)
    have h1 : ¬ ((a == '\x7b' &&
        is_scoping_open_brace line i lineIdx prot) = true) := by
      intro hh
      rw [Bool.and_eq_true] at hh
      rw [eq_of_beq hh.1] at ha
      exact absurd ha (by decide)
    have h2 : ¬ ((a == '\x7d' &&
        is_scoping_close_brace line i lineIdx prot) = true) := by
      intro hh
      rw [Bool.and_eq_true] at hh
      rw [eq_of_beq hh.1] at ha
      exact absurd ha (by decide)
    rw [findBraceFrom, if_neg h1, if_neg h2]
    exact ih (i + 1) (fun c hc => hsp c (List.mem_cons_of_mem _ hc))

theorem findBrace_of_all_space (line : List Char) (lineIdx : Nat)
    (prot : List (Nat × Nat)) (h : lstrip line = []) :
    findBrace line lineIdx prot = none := by
  have hall : ∀ c ∈ line, pyspace c = true := by
    rw [lstrip, List.dropWhile_eq_nil_iff] at h
    exact h
  exact findBraceFrom_all_space line lineIdx prot line 0 hall

/-- C10: for every non-trivial input, every line of the conversion's output
is either the empty string or contains at least one non-whitespace
character; moreover a whitespace-only source line is always emitted as a
completely empty output line with the depth unchanged. -/
theorem output_lines_empty_or_nonspace (stream : List (Except LexError Tok))
    (code out : List Char) (h : strip code ≠ [])
    (hout : convert_curly_to_indented stream code = Except.ok out) :
    (∀ l ∈ splitlines out, l = [] ∨ ∃ c ∈ l, pyspace c = false) ∧
    (∀ (prot : List (Nat × Nat)) (lineIdx : Nat) (d : Int) (line : List Char),
      lstrip line = [] → processLine prot lineIdx d line = ([[]], d)) := by
  constructor
  · intro l hl
    cases hp : get_protected_positions code stream with
    | error e =>
      rw [convert_error_of_gpp_error stream code e h hp] at hout
      exact absurd hout (by simp)
    | ok prot =>
      rw [convert_eq_joined stream code prot h hp] at hout
      rw [← (Except.ok.injEq _ _).mp hout] at hl
      have hQclean : ∀ x ∈ cleanedLines prot code,
          x = [] ∨ ∃ c ∈ x, pyspace c = false := by
        intro x hx
        rcases cleanAux_mem _ [] x hx with h1 | h1
        · simp at h1
        · exact processLinesFrom_blank_or_nonspace _ _ 0 0 x h1
      have hnl := cleanedLines_no_newline prot code
      by_cases he : endswith code '\n' = true
      · rw [if_pos he] at hl
        by_cases h0 : cleanedLines prot code = []
        · rw [h0] at hl
          rw [show splitlines (joinLines [] ++ ['\n']) = [[]] from by decide] at hl
          exact Or.inl (List.mem_singleton.mp hl)
        · rw [splitlines_join_newline _ h0 hnl] at hl
          exact hQclean l hl
      · rw [if_neg he, splitlines_join _ hnl] at hl
        by_cases hlast : (cleanedLines prot code).getLast? = some ([] : List Char)
        · rw [if_pos hlast] at hl
          exact hQclean l (List.mem_of_mem_dropLast hl)
        · rw [if_neg hlast] at hl
          exact hQclean l hl
  · intro prot lineIdx d line hline
    rw [processLine_none_eq prot lineIdx d line
      (findBrace_of_all_space line lineIdx prot hline),
      if_neg (fun hne => hne hline)]

/-- Witness for C10: on `"if x: {\n\n    y()\n}\n"` (which contains a blank
line) every output line is empty or has a non-whitespace character, and the
whitespace-only line `"  "` is emitted as the empty line. -/
theorem output_lines_empty_or_nonspace_witness :
    (strip ("if x: \x7b\n\n    y()\n\x7d\n".toList) ≠ [] ∧
      convert_curly_to_indented [] ("if x: \x7b\n\n    y()\n\x7d\n".toList) =
        Except.ok ("if x:\n\n    y()\n".toList)) ∧
    ((∀ l ∈ splitlines ("if x:\n\n    y()\n".toList),
      l = [] ∨ ∃ c ∈ l, pyspace c = false) ∧
    (∀ (prot : List (Nat × Nat)) (lineIdx : Nat) (d : Int) (line : List Char),
      lstrip line = [] → processLine prot lineIdx d line = ([[]], d))) :=
  ⟨⟨by decide, by decide⟩,
    output_lines_empty_or_nonspace [] ("if x: \x7b\n\n    y()\n\x7d\n".toList)
      ("if x:\n\n    y()\n".toList) (by decide) (by decide)⟩

end BraceToWs
